import Mathlib

/-!
# Formal model of the nightmare generic test case minimizer

A shallow embedding of `fuzzers/generic_minimizer.py` (class
`CGenericMinimizer`).  Byte buffers are `List Nat`; the Python `dict`
`self.crash` is an association list with Python `dict` semantics
(assignment replaces the value of an existing key in place, `del`
removes the key); the external crash oracle (`TimeoutCommand.run`) is a
function from the trial buffer to the process return value, and the
`RETURN_SIGNALS` table is represented by its list of keys.  Statements
that can raise a Python exception (`IndexError` from out-of-range
buffer indexing, `list.pop` on an empty list, `ValueError` from
`int()`) return `Except String`.
-/

set_option autoImplicit false

namespace GenericMinimizer

/-- A byte buffer (Python `bytearray` / `str` contents). -/
abbrev Buf := List Nat

/-- A Python `dict` from offset to byte, as an association list. -/
abbrev Dict := List (Nat × Nat)

/-- Lookup `d[k]`: first entry with the given key (keys are unique for
dicts built by `dictInsert`). -/
def dictLookup : Dict → Nat → Option Nat
  | [], _ => none
  | (k, v) :: rest, key => if k = key then some v else dictLookup rest key

/-- Python `k in d`. -/
def dictMem (d : Dict) (k : Nat) : Bool := (dictLookup d k).isSome

/-- Python `d[k] = v`: replace the value of an existing key, otherwise
append a new entry. -/
def dictInsert : Dict → Nat → Nat → Dict
  | [], k, v => [(k, v)]
  | (k0, v0) :: rest, k, v =>
      if k0 = k then (k, v) :: rest else (k0, v0) :: dictInsert rest k v

/-- Python `del d[k]`. -/
def dictErase (d : Dict) (k : Nat) : Dict := d.filter (fun p => p.1 != k)

/-- The keys of a dict, in entry order. -/
def dictKeys (d : Dict) : List Nat := d.map (fun p => p.1)

/-- Python `buf[pos] = v` on a `bytearray`: in-place update, raising
`IndexError` when `pos` is out of range. -/
def setByte (buf : Buf) (pos v : Nat) : Except String Buf :=
  if pos < buf.length then .ok (buf.set pos v) else .error "IndexError"

/-! ## read_diff -/

/-- Python `str.strip(c)` for a one-character argument: remove every
leading and trailing occurrence of `c`. -/
def stripChar (c : Char) (l : List Char) : List Char :=
  ((l.dropWhile (fun x => x == c)).reverse.dropWhile (fun x => x == c)).reverse

/-- Python 2 `str.isdigit` on a byte string: nonempty and all ASCII
decimal digits. -/
def isDigitLine (l : List Char) : Bool := !l.isEmpty && l.all (fun c => c.isDigit)

/-- Decimal value of a digit string (Python `int(line)` after
`isdigit` succeeded). -/
def digitsToNat (l : List Char) : Nat := l.foldl (fun a c => a * 10 + (c.toNat - 48)) 0

/-- Python `line.startswith("#")`. -/
def startsHash : List Char → Bool
  | '#' :: _ => true
  | _ => false

/-- One iteration of the `read_diff` loop body: the offset contributed
by one line of the diff file, if any.  Lines starting with `#` are
skipped; otherwise the line is stripped with `.strip("\n").strip("\r")`
and accepted when the result `isdigit()`. -/
def read_diff_line (line : List Char) : Option Nat :=
  if startsHash line then none
  else
    let s := stripChar '\r' (stripChar '\n' line)
    if isDigitLine s then some (digitsToNat s) else none

/-- The method `CGenericMinimizer.read_diff`, over the list of lines returned by
`f.readlines()` (each line is a maximal chunk ending in a newline, or
the final chunk). -/
def read_diff (lines : List (List Char)) : List Nat := lines.filterMap read_diff_line

/-- Splitting a file's contents into lines the way Python 2
`readlines()` does on a binary file: after every newline byte. -/
def readlines (contents : List Char) : List (List Char) :=
  match contents with
  | [] => []
  | c :: rest =>
    match readlines rest with
    | [] => [[c]]
    | l :: ls => if c = '\n' then [c] :: l :: ls else (c :: l) :: ls

/-! ## read_crash -/

/-- The loop of `read_crash`: `for pos in self.diff: self.crash[pos] = tmp[pos]`,
raising `IndexError` when an offset is outside the crashing file. -/
def read_crash_go (tmp : Buf) : List Nat → Dict → Except String Dict
  | [], m => .ok m
  | pos :: rest, m =>
    match tmp.get? pos with
    | none => .error "IndexError"
    | some b => read_crash_go tmp rest (dictInsert m pos b)

/-- The method `CGenericMinimizer.read_crash`: project the crashing file through
the diff offsets into the crash-byte map. -/
def read_crash (tmp : Buf) (diff : List Nat) : Except String Dict :=
  read_crash_go tmp diff []

/-! ## read_configuration

The configuration file is modelled as a flag saying whether the file
exists plus the parsed section list (section name to key/value items),
which is what `ConfigParser` exposes through `sections()`, `get` and
`items`. -/

/-- Parsed configuration contents: section name to key/value items. -/
abbrev Ini := List (String × List (String × String))

/-- The items of a section, `none` when the section is absent
(`ConfigParser` raises `NoSectionError`). -/
def sectionItems : Ini → String → Option (List (String × String))
  | [], _ => none
  | (name, items) :: rest, sect =>
      if name = sect then some items else sectionItems rest sect

/-- Python `parser.get(section, key)` on an existing section: `none` models
`NoOptionError`. -/
def itemGet : List (String × String) → String → Option String
  | [], _ => none
  | (k, v) :: rest, key => if k = key then some v else itemGet rest key

/-- Whitespace stripped by Python 2 `int()` before parsing. -/
def isPyWs (c : Char) : Bool :=
  c == ' ' || c == '\t' || c == '\n' || c == '\r' || c == '\x0b' || c == '\x0c'

/-- Digit-string value used by `int()`: nonempty all-digit strings only. -/
def digitsVal (l : List Char) : Option Nat :=
  if isDigitLine l then some (digitsToNat l) else none

/-- Python 2 `int(s)` on a string: strip whitespace, allow one sign,
then a nonempty run of decimal digits; anything else raises
`ValueError`. -/
def pyInt (s : String) : Option Int :=
  let t := (s.data.dropWhile isPyWs).reverse.dropWhile isPyWs |>.reverse
  match t with
  | '+' :: ds => (digitsVal ds).map (fun n => (n : Int))
  | '-' :: ds => (digitsVal ds).map (fun n => -(n : Int))
  | ds => (digitsVal ds).map (fun n => (n : Int))

/-- The fields set by `read_configuration`. -/
structure Settings where
  preCommand : Option String
  postCommand : Option String
  command : String
  extension : String
  timeout : Int
  env : List (String × String)
  cleanup : Option String
deriving Repr, DecidableEq

/-- The method `CGenericMinimizer.read_configuration`.  Here `present` is whether
`os.path.exists(self.cfg)` holds.  Optional keys fall back to `None`
(or `{}` for the environment, also when the named environment section
does not exist); a missing `command` or `extension` raises; a present
but non-integer `timeout` raises `ValueError` at `int(self.timeout)`. -/
def read_configuration (present : Bool) (ini : Ini) (sect : String) :
    Except String Settings :=
  if !present then .error "Invalid configuration file given"
  else
    match sectionItems ini sect with
    | none => .error "Section does not exist in the given configuration file"
    | some items =>
      let pre := itemGet items "pre-command"
      let post := itemGet items "post-command"
      match itemGet items "command" with
      | none => .error "No command specified in the configuration file"
      | some cmd =>
        match itemGet items "extension" with
        | none => .error "No extension specified in the configuration file"
        | some ext =>
          let timeoutRes : Except String Int :=
            match itemGet items "timeout" with
            | none => .ok 90
            | some s =>
              match pyInt s with
              | some v => .ok v
              | none => .error "ValueError: invalid literal for int()"
          match timeoutRes with
          | .error e => .error e
          | .ok t =>
            let env : List (String × String) :=
              match itemGet items "environment" with
              | none => []
              | some envSect => (sectionItems ini envSect).getD []
            let cl := itemGet items "cleanup-command"
            .ok { preCommand := pre, postCommand := post, command := cmd,
                  extension := ext, timeout := t, env := env, cleanup := cl }

/-! ## do_try

The nested search.  `Ctx` packages the crash oracle (the return value
of `TimeoutCommand(cmd).run(timeout)` as a function of the trial
buffer) and the keys of the `RETURN_SIGNALS` table. -/

/-- Modelled from the spec: `TimeoutCommand` and `RETURN_SIGNALS` live
in `runtime/nfp_process.py`, outside these sources.  The oracle is the
return value of the timeout-bounded command invocation as a function
of the trial buffer (a timeout or normal exit yields some value; only
values among the table keys count as crashes), and `signals` is the
key set of the `RETURN_SIGNALS` table. -/
structure Ctx where
  oracle : Buf → Int
  signals : List Int

/-- State of `do_try` between outer rounds: the candidate offsets
`self.diff`, the crash-byte map `self.crash`, the template buffer
`self.template`, and the `iteration` counter. -/
structure MinState where
  diff : List Nat
  crash : Dict
  template : Buf
  iteration : Nat
deriving Repr, DecidableEq

/-- Result of the inner `for pos in self.diff` loop of one outer
round: either a crashing trial buffer was found (`break` with
`minimized = True`), or the round was exhausted with the final value of
the iteration counter. -/
inductive InnerRes
  | crashed (buf : Buf)
  | done (iter : Nat)
deriving Repr, DecidableEq

/-- The inner loop of `do_try`.  For each `pos`: when the iteration is
at or past `start_at`, an offset absent from the crash map `continue`s
(skipping the `iteration += 1` at the bottom of the loop body); an
in-bounds trial writes the crash byte over a copy of the template and
asks the oracle, breaking out on a return value in `RETURN_SIGNALS`;
otherwise (including iterations below `start_at`) the counter is
incremented and the loop moves on. -/
def innerLoop (c : Ctx) (startAt : Nat) (tpl : Buf) (crash : Dict) :
    List Nat → Nat → Except String InnerRes
  | [], iter => .ok (.done iter)
  | pos :: rest, iter =>
    if startAt ≤ iter then
      match dictLookup crash pos with
      | none => innerLoop c startAt tpl crash rest iter
      | some b =>
        match setByte tpl pos b with
        | .error e => .error e
        | .ok buf =>
          if c.signals.contains (c.oracle buf) then .ok (.crashed buf)
          else innerLoop c startAt tpl crash rest (iter + 1)
    else innerLoop c startAt tpl crash rest (iter + 1)

/-- The commit step at the bottom of an outer round:
`value = self.diff.pop()`, and when `value` is still in the crash map,
`self.template[value] = self.crash[value]; del self.crash[value]`.
`pop` on an empty list raises `IndexError`, and the template write can
raise `IndexError` when `value` is out of range. -/
def commit (st : MinState) : Except String MinState :=
  match st.diff.getLast? with
  | none => .error "IndexError: pop from empty list"
  | some v =>
    let diff2 := st.diff.dropLast
    match dictLookup st.crash v with
    | none => .ok { st with diff := diff2 }
    | some b =>
      match setByte st.template v b with
      | .error e => .error e
      | .ok t =>
        .ok { diff := diff2, crash := dictErase st.crash v,
              template := t, iteration := st.iteration }

/-- Outcome of one outer round: a crashing buffer was persisted, or
the round ended and the committed state continues into the next round. -/
inductive RoundRes
  | finished (buf : Buf)
  | next (st : MinState)
deriving Repr, DecidableEq

/-- One outer round of `do_try`: run every trial of the round, then
(only if no trial crashed) commit the last candidate offset. -/
def roundStep (c : Ctx) (startAt : Nat) (st : MinState) : Except String RoundRes :=
  match innerLoop c startAt st.template st.crash st.diff st.iteration with
  | .error e => .error e
  | .ok (.crashed buf) => .ok (.finished buf)
  | .ok (.done iter) =>
    match commit { st with iteration := iter } with
    | .error e => .error e
    | .ok st2 => .ok (.next st2)

/-- Final outcome of `do_try`: on success the minimized buffer that
was written to the output directory (`shutil.copy` of the trial file,
named by its SHA1 digest); on failure (the
`"Sorry, could not minimize crashing file!"` log line) the final
engine state. -/
inductive RunRes
  | minimized (buf : Buf)
  | failed (st : MinState)
deriving Repr, DecidableEq

/-- The outer `for i in range(len(self.diff))` loop: the number of
rounds is the length of `self.diff` at entry. -/
def outerLoop (c : Ctx) (startAt : Nat) : Nat → MinState → Except String RunRes
  | 0, st => .ok (.failed st)
  | n + 1, st =>
    match roundStep c startAt st with
    | .error e => .error e
    | .ok (.finished buf) => .ok (.minimized buf)
    | .ok (.next st2) => outerLoop c startAt n st2

/-- The method `CGenericMinimizer.do_try`. -/
def do_try (c : Ctx) (startAt : Nat) (st : MinState) : Except String RunRes :=
  outerLoop c startAt st.diff.length st

/-- The files written into the output directory by a run: exactly one
(the minimized buffer) on success, none on failure. -/
def filesWritten : RunRes → List Buf
  | .minimized buf => [buf]
  | .failed _ => []

/-- Whether the run ended with the could-not-minimize failure log. -/
def failureLogged : RunRes → Bool
  | .minimized _ => false
  | .failed _ => true

/-- The method `CGenericMinimizer.minimize` (with `start_at` from the
`NIGHTMARE_ITERATION` environment variable passed explicitly):
read the diff lines, take the template, project the crashing file,
then run `do_try`. -/
def minimize (c : Ctx) (startAt : Nat) (templateBuf crashBuf : Buf)
    (diffLines : List (List Char)) : Except String RunRes :=
  let diff := read_diff diffLines
  match read_crash crashBuf diff with
  | .error e => .error e
  | .ok crashMap =>
      do_try c startAt
        { diff := diff, crash := crashMap, template := templateBuf, iteration := 0 }

/-! ## Invariants and specification-side definitions -/

/-- Every candidate offset is inside the template buffer. -/
def inBounds (st : MinState) : Prop := ∀ k ∈ st.diff, k < st.template.length

/-- The crash-byte map's domain and the candidate-offset sequence hold
the same offsets (the lockstep invariant of the spec's data model). -/
def inSync (st : MinState) : Prop :=
  (∀ k ∈ dictKeys st.crash, k ∈ st.diff) ∧ (∀ k ∈ st.diff, dictMem st.crash k = true)

/-- A well-formed engine state: duplicate-free candidates, lockstep
map, in-bounds offsets. -/
def goodState (st : MinState) : Prop := st.diff.Nodup ∧ inSync st ∧ inBounds st

instance inBoundsDecidable (st : MinState) : Decidable (inBounds st) :=
  inferInstanceAs (Decidable (∀ k ∈ st.diff, k < st.template.length))

instance inSyncDecidable (st : MinState) : Decidable (inSync st) :=
  inferInstanceAs (Decidable ((∀ k ∈ dictKeys st.crash, k ∈ st.diff) ∧
    (∀ k ∈ st.diff, dictMem st.crash k = true)))

instance goodStateDecidable (st : MinState) : Decidable (goodState st) :=
  inferInstanceAs (Decidable (st.diff.Nodup ∧ inSync st ∧ inBounds st))

/-- The sum `n + (n-1) + ... + 1`: the total number of (outer-round, offset)
pairs visited by a run that exhausts `n` initial candidates (each round
visits one candidate fewer than the round before). -/
def gauss : Nat → Nat
  | 0 => 0
  | n + 1 => (n + 1) + gauss n

/-- The line acceptance rule exactly as the claim states it: drop only
*trailing* newline and carriage-return characters and require the rest
to be all decimal digits. -/
def read_diff_line_claim (line : List Char) : Option Nat :=
  if startsHash line then none
  else
    let s := line.rdropWhile (fun c => c == '\n' || c == '\r')
    if isDigitLine s then some (digitsToNat s) else none

/-- Removal of leading and trailing newline characters followed by
removal of leading and trailing carriage-return characters (the
amended reading of the spec's stripping step). -/
def stripNlCr (line : List Char) : List Char :=
  let a := (line.dropWhile (fun c => c == '\n')).rdropWhile (fun c => c == '\n')
  (a.dropWhile (fun c => c == '\r')).rdropWhile (fun c => c == '\r')

/-- Amended acceptance predicate for a diff line: not a comment, and
all decimal digits after the stripping step. -/
def acceptedLine (line : List Char) : Bool :=
  !startsHash line && isDigitLine (stripNlCr line)

/-- The decimal value an accepted diff line denotes. -/
def lineValue (line : List Char) : Nat := digitsToNat (stripNlCr line)

/-! ## Helper lemmas: the dict model -/

theorem dictLookup_insert (d : Dict) (k v j : Nat) :
    dictLookup (dictInsert d k v) j = if k = j then some v else dictLookup d j := by
  induction d with
  | nil => simp [dictInsert, dictLookup]
  | cons p rest ih =>
    obtain ⟨k0, v0⟩ := p
    by_cases h : k0 = k
    · subst h
      simp only [dictInsert, if_pos rfl, dictLookup]
      by_cases hj : k0 = j <;> simp [hj]
    · simp only [dictInsert, if_neg h, dictLookup, ih]
      by_cases hj : k0 = j <;> by_cases hk : k = j <;> simp_all

theorem dictMem_insert (d : Dict) (k v j : Nat) :
    dictMem (dictInsert d k v) j = (dictMem d j || decide (k = j)) := by
  simp only [dictMem, dictLookup_insert]
  by_cases h : k = j <;> simp [h]

theorem dictLookup_erase (d : Dict) (k j : Nat) :
    dictLookup (dictErase d k) j = if j = k then none else dictLookup d j := by
  induction d with
  | nil => simp [dictErase, dictLookup]
  | cons p rest ih =>
    obtain ⟨k0, v0⟩ := p
    by_cases h0 : k0 = k
    · subst h0
      have hfc : dictErase ((k0, v0) :: rest) k0 = dictErase rest k0 := by
        simp [dictErase, List.filter_cons]
      rw [hfc, ih]
      by_cases hj : j = k0
      · simp [hj]
      · simp [dictLookup, hj, Ne.symm hj]
    · have hfc : dictErase ((k0, v0) :: rest) k = (k0, v0) :: dictErase rest k := by
        simp [dictErase, List.filter_cons, h0]
      rw [hfc]
      simp only [dictLookup, ih]
      by_cases h1 : k0 = j
      · subst h1
        simp [h0]
      · simp [h1]

theorem dictMem_erase (d : Dict) (k j : Nat) :
    dictMem (dictErase d k) j = (dictMem d j && !decide (j = k)) := by
  simp only [dictMem, dictLookup_erase]
  by_cases h : j = k <;> simp [h]

theorem mem_dictKeys (d : Dict) (j : Nat) : j ∈ dictKeys d ↔ dictMem d j = true := by
  induction d with
  | nil => simp [dictKeys, dictMem, dictLookup]
  | cons p rest ih =>
    obtain ⟨k0, v0⟩ := p
    simp only [dictKeys, List.map_cons, List.mem_cons, dictMem, dictLookup] at *
    by_cases h : k0 = j
    · subst h; simp
    · have h2 : ¬ j = k0 := fun hh => h hh.symm
      simp [h, h2, ih]

theorem dictMem_some (d : Dict) (j : Nat) (h : dictMem d j = true) :
    ∃ b, dictLookup d j = some b := by
  simpa [dictMem, Option.isSome_iff_exists] using h

/-! ## Helper lemmas: lists -/

theorem getLast?_decomp {α : Type} (l : List α) (v : α) (h : l.getLast? = some v) :
    l.dropLast ++ [v] = l :=
  List.dropLast_append_getLast? v h

theorem mem_of_getLast? {α : Type} (l : List α) (v : α) (h : l.getLast? = some v) :
    v ∈ l := by
  rw [← getLast?_decomp l v h]
  simp

/-! ## Helper lemmas: read_crash -/

theorem read_crash_go_ok_mem (tmp : Buf) (l : List Nat) :
    ∀ (m resM : Dict), read_crash_go tmp l m = .ok resM →
      ∀ k, dictMem resM k = (dictMem m k || l.contains k) := by
  induction l with
  | nil =>
    intro m resM h k
    simp only [read_crash_go, Except.ok.injEq] at h
    subst h
    simp
  | cons pos rest ih =>
    intro m resM h k
    simp only [read_crash_go] at h
    split at h
    · exact absurd h (by simp)
    · rename_i b hg
      rw [ih _ _ h k, dictMem_insert]
      by_cases hk : pos = k
      · simp [hk, List.contains_cons]
      · have hk2 : ¬ (k = pos) := fun hh => hk hh.symm
        simp [hk, hk2, List.contains_cons, Bool.or_assoc]

theorem read_crash_go_error_iff (tmp : Buf) (l : List Nat) :
    ∀ m : Dict, (∃ e, read_crash_go tmp l m = .error e) ↔ ∃ p ∈ l, tmp.length ≤ p := by
  induction l with
  | nil => intro m; simp [read_crash_go]
  | cons pos rest ih =>
    intro m
    cases hg : tmp.get? pos with
    | none =>
      have hle : tmp.length ≤ pos := List.get?_eq_none.mp hg
      simp only [read_crash_go, hg]
      constructor
      · intro _; exact ⟨pos, List.mem_cons_self _ _, hle⟩
      · intro _; exact ⟨"IndexError", rfl⟩
    | some b =>
      have hlt : ¬ tmp.length ≤ pos := by
        intro hle
        rw [List.get?_eq_none.mpr hle] at hg
        exact Option.noConfusion hg
      simp only [read_crash_go, hg]
      rw [ih (dictInsert m pos b)]
      constructor
      · rintro ⟨p, hp, hle⟩
        exact ⟨p, List.mem_cons_of_mem _ hp, hle⟩
      · rintro ⟨p, hp, hle⟩
        rcases List.mem_cons.mp hp with hpe | hpm
        · exact absurd (hpe ▸ hle) hlt
        · exact ⟨p, hpm, hle⟩

/-! ## Helper lemmas: the inner loop -/

theorem innerLoop_no_crash_ok (c : Ctx) (startAt : Nat) (tpl : Buf) (crash : Dict)
    (hor : ∀ buf, c.signals.contains (c.oracle buf) = false) (l : List Nat) :
    ∀ iter, (∀ pos ∈ l, pos < tpl.length) →
      ∃ it2, innerLoop c startAt tpl crash l iter = .ok (.done it2) ∧ iter ≤ it2 := by
  induction l with
  | nil => intro iter _; exact ⟨iter, rfl, le_refl _⟩
  | cons pos rest ih =>
    intro iter hb
    by_cases hs : startAt ≤ iter
    · cases hl : dictLookup crash pos with
      | none =>
        obtain ⟨it2, h1, h2⟩ := ih iter (fun p hp => hb p (List.mem_cons_of_mem _ hp))
        exact ⟨it2, by simp [innerLoop, hs, hl, h1], h2⟩
      | some b =>
        have hpos : pos < tpl.length := hb pos (List.mem_cons_self _ _)
        have hset : setByte tpl pos b = .ok (tpl.set pos b) := by simp [setByte, hpos]
        have hc : c.oracle (tpl.set pos b) ∉ c.signals := by
          simpa using hor (tpl.set pos b)
        obtain ⟨it2, h1, h2⟩ := ih (iter + 1) (fun p hp => hb p (List.mem_cons_of_mem _ hp))
        refine ⟨it2, ?_, by omega⟩
        simp [innerLoop, hs, hl, hset, hor, hc, h1]
    · obtain ⟨it2, h1, h2⟩ := ih (iter + 1) (fun p hp => hb p (List.mem_cons_of_mem _ hp))
      exact ⟨it2, by simp [innerLoop, hs, h1], by omega⟩

theorem innerLoop_count (c : Ctx) (startAt : Nat) (tpl : Buf) (crash : Dict)
    (hor : ∀ buf, c.signals.contains (c.oracle buf) = false) (l : List Nat) :
    ∀ iter, (∀ pos ∈ l, dictMem crash pos = true) → (∀ pos ∈ l, pos < tpl.length) →
      innerLoop c startAt tpl crash l iter = .ok (.done (iter + l.length)) := by
  induction l with
  | nil => intro iter _ _; simp [innerLoop]
  | cons pos rest ih =>
    intro iter hm hb
    obtain ⟨b, hl⟩ := dictMem_some crash pos (hm pos (List.mem_cons_self _ _))
    have hpos : pos < tpl.length := hb pos (List.mem_cons_self _ _)
    have hset : setByte tpl pos b = .ok (tpl.set pos b) := by simp [setByte, hpos]
    have ihr := ih (iter + 1) (fun p hp => hm p (List.mem_cons_of_mem _ hp))
      (fun p hp => hb p (List.mem_cons_of_mem _ hp))
    have harith : iter + 1 + rest.length = iter + (rest.length + 1) := by omega
    have hc : c.oracle (tpl.set pos b) ∉ c.signals := by
      simpa using hor (tpl.set pos b)
    by_cases hs : startAt ≤ iter
    · simp [innerLoop, hs, hl, hset, hor, hc, ihr, harith]
    · simp [innerLoop, hs, ihr, harith]

theorem innerLoop_mono (c : Ctx) (startAt : Nat) (tpl : Buf) (crash : Dict) (l : List Nat) :
    ∀ iter it2, innerLoop c startAt tpl crash l iter = .ok (.done it2) → iter ≤ it2 := by
  induction l with
  | nil =>
    intro iter it2 h
    simp only [innerLoop, Except.ok.injEq, InnerRes.done.injEq] at h
    omega
  | cons pos rest ih =>
    intro iter it2 h
    by_cases hs : startAt ≤ iter
    · simp only [innerLoop, if_pos hs] at h
      split at h
      · exact ih _ _ h
      · split at h
        · exact absurd h (by simp)
        · split at h
          · exact absurd h (by simp)
          · have := ih _ _ h
            omega
    · simp only [innerLoop, if_neg hs] at h
      have := ih _ _ h
      omega

/-! ## Helper lemmas: the commit step -/

theorem commit_ok (st : MinState) (v : Nat) (hlast : st.diff.getLast? = some v)
    (hb : ∀ k ∈ st.diff, k < st.template.length) :
    ∃ st2, commit st = .ok st2 ∧ st2.diff = st.diff.dropLast ∧
      st2.template.length = st.template.length ∧ st2.iteration = st.iteration := by
  have hv : v ∈ st.diff := mem_of_getLast? _ _ hlast
  cases hl : dictLookup st.crash v with
  | none =>
    refine ⟨{ st with diff := st.diff.dropLast }, ?_, rfl, rfl, rfl⟩
    simp [commit, hlast, hl]
  | some b =>
    have hvlen : v < st.template.length := hb v hv
    refine ⟨{ diff := st.diff.dropLast, crash := dictErase st.crash v,
              template := st.template.set v b, iteration := st.iteration },
            ?_, rfl, by simp, rfl⟩
    simp [commit, hlast, hl, setByte, hvlen]

theorem not_mem_dropLast_of_nodup (l : List Nat) (v : Nat) (hlast : l.getLast? = some v)
    (hnd : l.Nodup) : v ∉ l.dropLast := by
  intro hmem
  have hdec := getLast?_decomp l v hlast
  rw [← hdec] at hnd
  have hdisj := List.disjoint_of_nodup_append hnd
  exact hdisj hmem (List.mem_singleton_self v)

theorem mem_dropLast_iff_of_nodup (l : List Nat) (v k : Nat) (hlast : l.getLast? = some v)
    (hnd : l.Nodup) : k ∈ l.dropLast ↔ (k ∈ l ∧ k ≠ v) := by
  have hdec := getLast?_decomp l v hlast
  constructor
  · intro hk
    refine ⟨(List.dropLast_sublist l).subset hk, ?_⟩
    intro hkv
    exact not_mem_dropLast_of_nodup l v hlast hnd (hkv ▸ hk)
  · rintro ⟨hk, hkv⟩
    rw [← hdec] at hk
    rcases List.mem_append.mp hk with h1 | h1
    · exact h1
    · exact absurd (List.mem_singleton.mp h1) hkv

theorem commit_preserves_good (st st2 : MinState) (h : commit st = .ok st2)
    (hg : goodState st) : goodState st2 := by
  obtain ⟨hnd, ⟨hks, hsm⟩, hb⟩ := hg
  simp only [commit] at h
  split at h
  · exact absurd h (by simp)
  · rename_i v hlast
    have hnd2 : st.diff.dropLast.Nodup := (List.dropLast_sublist _).nodup hnd
    have hb2 : ∀ k ∈ st.diff.dropLast, k < st.template.length :=
      fun k hk => hb k ((List.dropLast_sublist _).subset hk)
    split at h
    · rename_i hl
      simp only [Except.ok.injEq] at h
      subst h
      refine ⟨hnd2, ⟨?_, ?_⟩, hb2⟩
      · intro k hk
        have hkd : k ∈ st.diff := hks k hk
        have hkm : dictMem st.crash k = true := hsm k hkd
        have hkv : k ≠ v := by
          intro hh
          rw [hh] at hkm
          simp [dictMem, hl] at hkm
        exact (mem_dropLast_iff_of_nodup st.diff v k hlast hnd).mpr ⟨hkd, hkv⟩
      · intro k hk
        exact hsm k ((List.dropLast_sublist _).subset hk)
    · rename_i b hl
      split at h
      · exact absurd h (by simp)
      · rename_i t hset
        have hvlen : v < st.template.length := by
          by_contra hge
          simp [setByte, hge] at hset
        have ht : t = st.template.set v b := by
          simp only [setByte, if_pos hvlen, Except.ok.injEq] at hset
          exact hset.symm
        simp only [Except.ok.injEq] at h
        subst h
        refine ⟨hnd2, ⟨?_, ?_⟩, ?_⟩
        · intro k hk
          rw [mem_dictKeys, dictMem_erase, Bool.and_eq_true] at hk
          have hkd : k ∈ st.diff := hks k ((mem_dictKeys _ _).mpr hk.1)
          have hkv : k ≠ v := by simpa using hk.2
          exact (mem_dropLast_iff_of_nodup st.diff v k hlast hnd).mpr ⟨hkd, hkv⟩
        · intro k hk
          have hkd : k ∈ st.diff := (List.dropLast_sublist _).subset hk
          have hkv : k ≠ v :=
            ((mem_dropLast_iff_of_nodup st.diff v k hlast hnd).mp hk).2
          rw [dictMem_erase, hsm k hkd]
          simp [hkv]
        · intro k hk
          rw [ht]
          simpa using hb2 k hk

/-! ## Helper lemmas: the outer loop -/

theorem getLast?_of_length_succ (l : List Nat) (n : Nat) (hlen : l.length = n + 1) :
    ∃ v, l.getLast? = some v := by
  cases hl : l.getLast? with
  | none =>
    rw [List.getLast?_eq_none_iff] at hl
    rw [hl] at hlen
    simp at hlen
  | some v => exact ⟨v, rfl⟩

theorem outerLoop_no_crash (c : Ctx) (startAt : Nat)
    (hor : ∀ buf, c.signals.contains (c.oracle buf) = false) :
    ∀ (n : Nat) (st : MinState), st.diff.length = n → inBounds st →
      ∃ stf, outerLoop c startAt n st = .ok (.failed stf) ∧ stf.diff = [] := by
  intro n
  induction n with
  | zero =>
    intro st hlen _
    exact ⟨st, rfl, List.length_eq_zero.mp hlen⟩
  | succ n ih =>
    intro st hlen hb
    obtain ⟨it2, hin, _⟩ :=
      innerLoop_no_crash_ok c startAt st.template st.crash hor st.diff st.iteration hb
    obtain ⟨v, hlast⟩ := getLast?_of_length_succ st.diff n hlen
    obtain ⟨st2, hc, hd, hl2, _⟩ :=
      commit_ok { st with iteration := it2 } v hlast hb
    have hb2 : inBounds st2 := by
      intro k hk
      rw [hd] at hk
      rw [hl2]
      exact hb k ((List.dropLast_sublist _).subset hk)
    have hlen2 : st2.diff.length = n := by
      rw [hd, List.length_dropLast, hlen]
      omega
    obtain ⟨stf, hout, hempty⟩ := ih st2 hlen2 hb2
    refine ⟨stf, ?_, hempty⟩
    simp [outerLoop, roundStep, hin, hc, hout]

theorem outerLoop_count (c : Ctx) (startAt : Nat)
    (hor : ∀ buf, c.signals.contains (c.oracle buf) = false) :
    ∀ (n : Nat) (st : MinState), st.diff.length = n → goodState st →
      ∃ stf, outerLoop c startAt n st = .ok (.failed stf) ∧
        stf.iteration = st.iteration + gauss n := by
  intro n
  induction n with
  | zero =>
    intro st _ _
    exact ⟨st, rfl, by simp [gauss]⟩
  | succ n ih =>
    intro st hlen hg
    obtain ⟨hnd, ⟨hks, hsm⟩, hb⟩ := hg
    have hin := innerLoop_count c startAt st.template st.crash hor st.diff
      st.iteration hsm hb
    obtain ⟨v, hlast⟩ := getLast?_of_length_succ st.diff n hlen
    obtain ⟨st2, hc, hd, hl2, hit⟩ :=
      commit_ok { st with iteration := st.iteration + st.diff.length } v hlast hb
    have hg2 : goodState st2 :=
      commit_preserves_good { st with iteration := st.iteration + st.diff.length } st2 hc
        ⟨hnd, ⟨hks, hsm⟩, hb⟩
    have hlen2 : st2.diff.length = n := by
      rw [hd, List.length_dropLast, hlen]
      omega
    obtain ⟨stf, hout, hiter⟩ := ih st2 hlen2 hg2
    refine ⟨stf, ?_, ?_⟩
    · simp [outerLoop, roundStep, hin, hc, hout]
    · rw [hiter, hit]
      simp only [hlen, gauss]
      omega

theorem roundStep_next_commit (c : Ctx) (startAt : Nat) (st st2 : MinState)
    (h : roundStep c startAt st = .ok (.next st2)) :
    ∃ iter, innerLoop c startAt st.template st.crash st.diff st.iteration =
        .ok (.done iter) ∧
      commit { st with iteration := iter } = .ok st2 := by
  simp only [roundStep] at h
  split at h
  · exact absurd h (by simp)
  · exact absurd h (by simp)
  · rename_i iter hin
    split at h
    · exact absurd h (by simp)
    · rename_i st3 hc
      simp only [Except.ok.injEq, RoundRes.next.injEq] at h
      subst h
      exact ⟨iter, hin, hc⟩

theorem commit_cases (st st2 : MinState) (h : commit st = .ok st2) :
    ∃ v, st.diff.getLast? = some v ∧ st2.diff = st.diff.dropLast ∧
      st2.iteration = st.iteration ∧
      ((dictLookup st.crash v = none ∧ st2.crash = st.crash ∧
          st2.template = st.template) ∨
        (∃ b, dictLookup st.crash v = some b ∧ v < st.template.length ∧
          st2.crash = dictErase st.crash v ∧
          st2.template = st.template.set v b)) := by
  simp only [commit] at h
  split at h
  · exact absurd h (by simp)
  · rename_i v hlast
    split at h
    · rename_i hl
      simp only [Except.ok.injEq] at h
      subst h
      exact ⟨v, hlast, rfl, rfl, Or.inl ⟨hl, rfl, rfl⟩⟩
    · rename_i b hl
      split at h
      · exact absurd h (by simp)
      · rename_i t hset
        have hvlen : v < st.template.length := by
          by_contra hge
          simp [setByte, hge] at hset
        have ht : t = st.template.set v b := by
          simp only [setByte, if_pos hvlen, Except.ok.injEq] at hset
          exact hset.symm
        simp only [Except.ok.injEq] at h
        subst h
        exact ⟨v, hlast, rfl, rfl, Or.inr ⟨b, hl, hvlen, rfl, ht⟩⟩

/-! ## The claims -/

/-- **C1**: in an outer round in which no single-change trial crashes
(the inner loop returns `done`), the engine pops exactly the last entry
of the candidate-offset sequence and, if that offset is in the
crash-byte map, writes the map's byte into the template at that offset
and deletes the offset from the map; the commit is applied only to the
state left after all trials of the round (the inner loop hypothesis
covers the whole of `st.diff`), and the run continues from the
committed state. -/
theorem claim1_commit_after_round (c : Ctx) (startAt n : Nat) (st : MinState)
    (iter v : Nat)
    (hin : innerLoop c startAt st.template st.crash st.diff st.iteration =
      .ok (.done iter))
    (hlast : st.diff.getLast? = some v) :
    (dictLookup st.crash v = none →
      outerLoop c startAt (n + 1) st =
        outerLoop c startAt n
          { diff := st.diff.dropLast, crash := st.crash,
            template := st.template, iteration := iter }) ∧
    (∀ b, dictLookup st.crash v = some b → v < st.template.length →
      outerLoop c startAt (n + 1) st =
        outerLoop c startAt n
          { diff := st.diff.dropLast, crash := dictErase st.crash v,
            template := st.template.set v b, iteration := iter }) := by
  constructor
  · intro hl
    simp [outerLoop, roundStep, hin, commit, hlast, hl]
  · intro b hl hlt
    simp [outerLoop, roundStep, hin, commit, hlast, hl, setByte, hlt]

/-- Witness for C1 at a concrete input: one candidate offset, an
oracle that never crashes; the round commits offset 1 with byte 66. -/
theorem claim1_commit_after_round_witness :
    outerLoop ⟨fun _ => 0, ([] : List Int)⟩ 0 1
        { diff := [1], crash := [(1, 66)], template := [65, 65], iteration := 0 } =
      outerLoop ⟨fun _ => 0, ([] : List Int)⟩ 0 0
        { diff := List.dropLast [1], crash := dictErase [(1, 66)] 1,
          template := List.set [65, 65] 1 66, iteration := 1 } :=
  (claim1_commit_after_round ⟨fun _ => 0, []⟩ 0 0
      { diff := [1], crash := [(1, 66)], template := [65, 65], iteration := 0 }
      1 1 rfl rfl).2 66 rfl (by decide)

/-- **C2**: a trial is classified as a crash exactly when the oracle's
return value is a key of the `RETURN_SIGNALS` table.  On a crash the
run returns immediately with the trial buffer persisted as the single
output file (no further trials, no further commits); on any other
return value the inner loop continues with the remaining trials. -/
theorem claim2_crash_classification (c : Ctx) (startAt n : Nat) (st : MinState)
    (pos : Nat) (rest : List Nat) (b : Nat) (buf : Buf)
    (hdiff : st.diff = pos :: rest) (hskip : startAt ≤ st.iteration)
    (hlook : dictLookup st.crash pos = some b)
    (hset : setByte st.template pos b = .ok buf) :
    (c.signals.contains (c.oracle buf) = true →
      outerLoop c startAt (n + 1) st = .ok (.minimized buf) ∧
      filesWritten (.minimized buf) = [buf]) ∧
    (c.signals.contains (c.oracle buf) = false →
      innerLoop c startAt st.template st.crash st.diff st.iteration =
        innerLoop c startAt st.template st.crash rest (st.iteration + 1)) := by
  constructor
  · intro hcr
    have hmem : c.oracle buf ∈ c.signals := by simpa using hcr
    have hin : innerLoop c startAt st.template st.crash st.diff st.iteration =
        .ok (.crashed buf) := by
      rw [hdiff]
      simp [innerLoop, hskip, hlook, hset, hcr, hmem]
    constructor
    · simp [outerLoop, roundStep, hin]
    · rfl
  · intro hcr
    have hmem : c.oracle buf ∉ c.signals := by simpa using hcr
    rw [hdiff]
    simp [innerLoop, hskip, hlook, hset, hcr, hmem]

/-- Witness for C2 at a concrete input: the oracle returns signal 11
exactly on the buffer `[65, 66]`; the run stops with that buffer
persisted. -/
theorem claim2_crash_classification_witness :
    outerLoop ⟨fun w => if w = [65, 66] then 11 else 0, [11]⟩ 0 1
        { diff := [1], crash := [(1, 66)], template := [65, 65], iteration := 0 } =
      .ok (.minimized [65, 66]) ∧
    filesWritten (.minimized [65, 66]) = [[65, 66]] :=
  (claim2_crash_classification ⟨fun w => if w = [65, 66] then 11 else 0, [11]⟩
      0 0 { diff := [1], crash := [(1, 66)], template := [65, 65], iteration := 0 }
      1 [] 66 [65, 66] rfl (by decide) rfl rfl).1 (by decide)

/-- **C3**: the trial buffer built for offset `pos` is the template
with the crash byte written at `pos` (this is the buffer given to the
oracle), and it agrees with the template at every other position while
holding the crash-byte map's value at `pos` (offset in bounds). -/
theorem claim3_trial_frame (c : Ctx) (startAt : Nat) (tpl : Buf) (crash : Dict)
    (pos : Nat) (rest : List Nat) (iter b : Nat)
    (hskip : startAt ≤ iter) (hlook : dictLookup crash pos = some b)
    (hpos : pos < tpl.length) :
    innerLoop c startAt tpl crash (pos :: rest) iter =
      (if c.signals.contains (c.oracle (tpl.set pos b)) then
        .ok (.crashed (tpl.set pos b))
      else innerLoop c startAt tpl crash rest (iter + 1)) ∧
    (tpl.set pos b).length = tpl.length ∧
    (tpl.set pos b).get? pos = some b ∧
    ∀ j, j ≠ pos → (tpl.set pos b).get? j = tpl.get? j := by
  have hset : setByte tpl pos b = .ok (tpl.set pos b) := by simp [setByte, hpos]
  refine ⟨?_, by simp, ?_, ?_⟩
  · simp [innerLoop, hskip, hlook, hset]
  · exact List.get?_set_eq_of_lt b hpos
  · intro j hj
    exact List.get?_set_ne b tpl (fun hh => hj hh.symm)

/-- Witness for C3 at a concrete input. -/
theorem claim3_trial_frame_witness :
    (innerLoop ⟨fun _ => 0, ([] : List Int)⟩ 0 [65, 65] [(1, 66)] [1] 0 =
      (if ([] : List Int).contains ((fun _ => (0 : Int)) (List.set [65, 65] 1 66)) then
        .ok (.crashed (List.set [65, 65] 1 66))
      else innerLoop ⟨fun _ => 0, ([] : List Int)⟩ 0 [65, 65] [(1, 66)] [] 1)) ∧
    (List.set [65, 65] 1 66).length = List.length [65, 65] ∧
    (List.set [65, 65] 1 66).get? 1 = some 66 ∧
    ∀ j, j ≠ 1 → (List.set [65, 65] 1 66).get? j = List.get? [65, 65] j :=
  claim3_trial_frame ⟨fun _ => 0, []⟩ 0 [65, 65] [(1, 66)] 1 [] 0 66
    (by decide) rfl (by decide)

/-- **C6**: across one outer round that continues, the template either
stays unchanged or is changed by the commit alone, at exactly the
committed (last) offset, to the crash-byte map's value; trials never
modify the template (a trial mutates only the fresh copy, see C3). -/
theorem claim6_template_mutation (c : Ctx) (startAt : Nat) (st st2 : MinState)
    (h : roundStep c startAt st = .ok (.next st2)) :
    st2.template = st.template ∨
    ∃ v b, st.diff.getLast? = some v ∧ dictLookup st.crash v = some b ∧
      st2.template = st.template.set v b ∧
      st2.template.get? v = some b ∧
      ∀ j, j ≠ v → st2.template.get? j = st.template.get? j := by
  obtain ⟨iter, hin, hc⟩ := roundStep_next_commit c startAt st st2 h
  obtain ⟨v, hlast, hd, hit, hcase⟩ := commit_cases _ _ hc
  rcases hcase with ⟨hl, hcr, ht⟩ | ⟨b, hl, hvlen, hcr, ht⟩
  · exact Or.inl ht
  · right
    refine ⟨v, b, hlast, hl, ht, ?_, ?_⟩
    · rw [ht]
      exact List.get?_set_eq_of_lt b hvlen
    · intro j hj
      rw [ht]
      exact List.get?_set_ne b _ (fun hh => hj hh.symm)

/-- **C4** (amended): the claim as stated fails on diff files with
duplicate offsets (see the counterexample); provided the candidate
sequence is duplicate-free, the lockstep invariant holds: `read_crash`
establishes that the crash-byte map's domain is exactly the offset set
of the candidate sequence, and every outer round that continues
preserves the full invariant (`goodState`), removing a committed
offset from both collections simultaneously. -/
theorem claim4_lockstep_invariant (tmp : Buf) (diff : List Nat) (m : Dict)
    (c : Ctx) (startAt : Nat) (st st2 : MinState) :
    (read_crash tmp diff = .ok m → ∀ k, dictMem m k = diff.contains k) ∧
    (goodState st → roundStep c startAt st = .ok (.next st2) → goodState st2) := by
  constructor
  · intro h k
    have hh := read_crash_go_ok_mem tmp diff [] m h k
    simpa [dictMem, dictLookup] using hh
  · intro hg h
    obtain ⟨iter, hin, hc⟩ := roundStep_next_commit c startAt st st2 h
    exact commit_preserves_good _ _ hc hg

/-- Counterexample to C4 as stated: with the duplicate diff `[5, 5]`
the first outer round pops one copy of offset 5 but deletes the only
map entry for 5, so the surviving copy is in the sequence but not in
the map. -/
theorem claim4_lockstep_counterexample :
    read_crash [0, 0, 0, 0, 0, 66] [5, 5] = .ok [(5, 66)] ∧
    roundStep ⟨fun _ => 0, [11]⟩ 0
        ⟨[5, 5], [(5, 66)], [65, 65, 65, 65, 65, 65], 0⟩ =
      .ok (.next ⟨[5], [], [65, 65, 65, 65, 65, 66], 2⟩) ∧
    ¬ inSync ⟨[5], [], [65, 65, 65, 65, 65, 66], 2⟩ :=
  ⟨rfl, rfl, by decide⟩

/-- Witness for C4 at a concrete input. -/
theorem claim4_lockstep_invariant_witness :
    (∀ k, dictMem [(1, 20)] k = [1].contains k) ∧
    goodState { diff := [], crash := [], template := [65, 66], iteration := 1 } :=
  ⟨(claim4_lockstep_invariant [10, 20] [1] [(1, 20)] ⟨fun _ => 0, []⟩ 0
      { diff := [1], crash := [(1, 66)], template := [65, 65], iteration := 0 }
      { diff := [], crash := [], template := [65, 66], iteration := 1 }).1 rfl,
   (claim4_lockstep_invariant [10, 20] [1] [(1, 20)] ⟨fun _ => 0, []⟩ 0
      { diff := [1], crash := [(1, 66)], template := [65, 65], iteration := 0 }
      { diff := [], crash := [], template := [65, 66], iteration := 1 }).2
      (by decide) rfl⟩

/-- **C5** (amended): the iteration counter never decreases, and for a
run from a well-formed state (duplicate-free candidates, lockstep map,
in-bounds offsets) that terminates without a crash, its final value is
the total number of (outer-round, offset) pairs visited,
`n + (n-1) + ... + 1` for `n` initial candidates.  As stated the claim
fails for duplicate diffs, where a pair whose offset is no longer in
the crash-byte map is visited without incrementing the counter (the
`continue` at the top of the loop body skips `iteration += 1`). -/
theorem claim5_iteration_count (c : Ctx) (startAt : Nat) (st : MinState)
    (l : List Nat) (iter it2 : Nat)
    (hor : ∀ buf, c.signals.contains (c.oracle buf) = false)
    (hg : goodState st) :
    (innerLoop c startAt st.template st.crash l iter = .ok (.done it2) →
      iter ≤ it2) ∧
    ∃ stf, do_try c startAt st = .ok (.failed stf) ∧
      stf.iteration = st.iteration + gauss st.diff.length := by
  constructor
  · exact innerLoop_mono c startAt st.template st.crash l iter it2
  · exact outerLoop_count c startAt hor st.diff.length st rfl hg

/-- Counterexample to C5 as stated: with duplicate diff `[5, 5]` and a
never-crashing oracle, the run visits 2 pairs in round one and 1 pair
in round two (3 pairs in total, which is `gauss 2`), but the final
counter is 2: the round-two pair is skipped by the `continue` without
an increment. -/
theorem claim5_iteration_counterexample :
    do_try ⟨fun _ => 0, [11]⟩ 0
        ⟨[5, 5], [(5, 66)], [65, 65, 65, 65, 65, 65], 0⟩ =
      .ok (.failed ⟨[], [], [65, 65, 65, 65, 65, 66], 2⟩) ∧
    (2 : Nat) ≠ gauss (List.length [5, 5]) :=
  ⟨rfl, by decide⟩

/-- Witness for C5 at a concrete input. -/
theorem claim5_iteration_count_witness :
    (innerLoop ⟨fun _ => 0, ([] : List Int)⟩ 0 [65, 65] [(1, 66)] [1] 0 =
        .ok (.done 1) → 0 ≤ 1) ∧
    ∃ stf, do_try ⟨fun _ => 0, ([] : List Int)⟩ 0
        { diff := [1], crash := [(1, 66)], template := [65, 65], iteration := 0 } =
          .ok (.failed stf) ∧
      stf.iteration = 0 + gauss (List.length [1]) :=
  claim5_iteration_count ⟨fun _ => 0, []⟩ 0
    { diff := [1], crash := [(1, 66)], template := [65, 65], iteration := 0 }
    [1] 0 1 (fun _ => rfl) (by decide)

/-- **C9**: if the oracle never returns a crash signal and every
candidate offset is in bounds, the run (which executes exactly
`st.diff.length` outer rounds, the fuel of `do_try`) terminates in the
failure state with the candidate sequence empty, the failure message
logged, and no file written to the output directory. -/
theorem claim9_no_crash_failure (c : Ctx) (startAt : Nat) (st : MinState)
    (hor : ∀ buf, c.signals.contains (c.oracle buf) = false)
    (hb : inBounds st) :
    ∃ stf, do_try c startAt st = .ok (.failed stf) ∧ stf.diff = [] ∧
      filesWritten (.failed stf) = [] ∧ failureLogged (.failed stf) = true := by
  obtain ⟨stf, h1, h2⟩ := outerLoop_no_crash c startAt hor st.diff.length st rfl hb
  exact ⟨stf, h1, h2, rfl, rfl⟩

/-- Witness for C9 at a concrete input. -/
theorem claim9_no_crash_failure_witness :
    ∃ stf, do_try ⟨fun _ => 0, ([] : List Int)⟩ 0
        { diff := [1], crash := [(1, 66)], template := [65, 65], iteration := 0 } =
      .ok (.failed stf) ∧ stf.diff = [] ∧
      filesWritten (.failed stf) = [] ∧ failureLogged (.failed stf) = true :=
  claim9_no_crash_failure ⟨fun _ => 0, []⟩ 0
    { diff := [1], crash := [(1, 66)], template := [65, 65], iteration := 0 }
    (fun _ => rfl) (by decide)

/-- Stripping as the source performs it agrees with stripping stated
through `dropWhile` and `rdropWhile`. -/
theorem stripChar_eq_rdrop (ch : Char) (l : List Char) :
    stripChar ch l = (l.dropWhile (fun x => x == ch)).rdropWhile (fun x => x == ch) :=
  rfl

/-- Pointwise description of one `read_diff` line in terms of the
amended acceptance predicate and value function. -/
theorem read_diff_line_eq (line : List Char) :
    read_diff_line line =
      if acceptedLine line then some (lineValue line) else none := by
  have hs : stripChar '\r' (stripChar '\n' line) = stripNlCr line := rfl
  simp only [read_diff_line, acceptedLine, lineValue, hs]
  by_cases h1 : startsHash line
  · simp [h1]
  · by_cases h2 : isDigitLine (stripNlCr line)
    · simp [h1, h2]
    · simp [h1, h2]

/-- **C7** (amended): a diff line contributes an offset exactly when it
does not begin with `#` and, after removing leading and trailing
newline characters and then leading and trailing carriage-return
characters, consists entirely of decimal digits; the contributed value
is that digit string's decimal value and accepted offsets appear in
file order.  As stated (trailing-only stripping) the claim fails on a
line beginning with a carriage return, which the code accepts. -/
theorem claim7_read_diff_amended (lines : List (List Char)) :
    read_diff lines = (lines.filter acceptedLine).map lineValue := by
  induction lines with
  | nil => rfl
  | cons line rest ih =>
    simp only [read_diff] at ih
    simp only [read_diff, List.filterMap_cons, read_diff_line_eq, List.filter_cons]
    by_cases h : acceptedLine line
    · simp [h, ih]
    · simp [h, ih]

/-- Counterexample to C7 as stated: the line `"\r5"` is accepted by the
code (Python `strip` removes the leading carriage return as well), but
under trailing-only stripping it is not all digits and the claim says
it must be rejected. -/
theorem claim7_strip_counterexample :
    read_diff_line ['\r', '5'] = some 5 ∧
    read_diff_line_claim ['\r', '5'] = none ∧
    read_diff [['\r', '5']] = [5] :=
  ⟨rfl, rfl, rfl⟩

/-- **C8** (amended): reading the configuration raises an error if and
only if the file is missing, the section is missing, `command` is
missing, `extension` is missing, **or** `timeout` is present but not a
valid integer literal (Python `int()` raises `ValueError` on it);
absent optional keys produce the documented defaults (90 for
`timeout`, `None` for the hooks, an empty mapping for the
environment) without error.  As stated the claim omits the malformed
`timeout` failure, see the counterexample. -/
theorem claim8_read_configuration_spec (present : Bool) (ini : Ini) (sect : String) :
    ((∃ e, read_configuration present ini sect = .error e) ↔
      (present = false ∨ sectionItems ini sect = none ∨
        ∃ items, sectionItems ini sect = some items ∧
          (itemGet items "command" = none ∨ itemGet items "extension" = none ∨
            ∃ s, itemGet items "timeout" = some s ∧ pyInt s = none))) ∧
    (∀ stg items, read_configuration present ini sect = .ok stg →
      sectionItems ini sect = some items →
      (itemGet items "timeout" = none → stg.timeout = 90) ∧
      (itemGet items "pre-command" = none → stg.preCommand = none) ∧
      (itemGet items "post-command" = none → stg.postCommand = none) ∧
      (itemGet items "cleanup-command" = none → stg.cleanup = none) ∧
      (itemGet items "environment" = none → stg.env = [])) := by
  cases present with
  | false =>
    constructor
    · simp [read_configuration]
    · intro stg items h _
      simp [read_configuration] at h
  | true =>
    cases hsec : sectionItems ini sect with
    | none =>
      constructor
      · simp [read_configuration, hsec]
      · intro stg items _ hitems
        exact absurd hitems (by simp)
    | some items0 =>
      cases hcmd : itemGet items0 "command" with
      | none =>
        constructor
        · simp [read_configuration, hsec, hcmd]
        · intro stg items h _
          simp [read_configuration, hsec, hcmd] at h
      | some cmd =>
        cases hext : itemGet items0 "extension" with
        | none =>
          constructor
          · simp [read_configuration, hsec, hcmd, hext]
          · intro stg items h _
            simp [read_configuration, hsec, hcmd, hext] at h
        | some ext =>
          cases hto : itemGet items0 "timeout" with
          | none =>
            constructor
            · simp [read_configuration, hsec, hcmd, hext, hto]
            · intro stg items h hitems
              rw [Option.some.injEq] at hitems
              subst hitems
              simp only [read_configuration, hsec, hcmd, hext, hto,
                Bool.not_true, Bool.false_eq_true, if_false,
                Except.ok.injEq] at h
              subst h
              refine ⟨fun _ => rfl, ?_, ?_, ?_, ?_⟩
              · intro hp; simp [hp]
              · intro hp; simp [hp]
              · intro hp; simp [hp]
              · intro hp; simp [hp]
          | some s =>
            cases hpi : pyInt s with
            | none =>
              constructor
              · simp [read_configuration, hsec, hcmd, hext, hto, hpi]
              · intro stg items h _
                simp [read_configuration, hsec, hcmd, hext, hto, hpi] at h
            | some tv =>
              constructor
              · simp [read_configuration, hsec, hcmd, hext, hto, hpi]
              · intro stg items h hitems
                rw [Option.some.injEq] at hitems
                subst hitems
                simp only [read_configuration, hsec, hcmd, hext, hto, hpi,
                  Bool.not_true, Bool.false_eq_true, if_false,
                  Except.ok.injEq] at h
                subst h
                refine ⟨?_, ?_, ?_, ?_, ?_⟩
                · intro hp; exact absurd hto (by simp [hp])
                · intro hp; simp [hp]
                · intro hp; simp [hp]
                · intro hp; simp [hp]
                · intro hp; simp [hp]

/-- Counterexample to C8 as stated: a configuration with the file
present and the section, `command`, and `extension` all present still
raises, because its `timeout` value is not an integer literal. -/
theorem claim8_timeout_counterexample :
    read_configuration true
        [("s", [("command", "c"), ("extension", ".x"), ("timeout", "abc")])] "s" =
      .error "ValueError: invalid literal for int()" ∧
    sectionItems [("s", [("command", "c"), ("extension", ".x"), ("timeout", "abc")])]
        "s" = some [("command", "c"), ("extension", ".x"), ("timeout", "abc")] ∧
    itemGet [("command", "c"), ("extension", ".x"), ("timeout", "abc")] "command" =
      some "c" ∧
    itemGet [("command", "c"), ("extension", ".x"), ("timeout", "abc")] "extension" =
      some ".x" :=
  ⟨rfl, rfl, rfl, rfl⟩

/-- Witness for C8 at concrete inputs: a section missing `command`
raises, and a minimal complete section yields the default timeout 90. -/
theorem claim8_read_configuration_spec_witness :
    (∃ e, read_configuration true [("s", ([] : List (String × String)))] "s" =
      .error e) ∧
    (⟨none, none, "c", ".x", 90, [], none⟩ : Settings).timeout = 90 :=
  ⟨(claim8_read_configuration_spec true [("s", [])] "s").1.mpr
      (Or.inr (Or.inr ⟨[], rfl, Or.inl rfl⟩)),
   ((claim8_read_configuration_spec true
        [("s", [("command", "c"), ("extension", ".x")])] "s").2
      ⟨none, none, "c", ".x", 90, [], none⟩
      [("command", "c"), ("extension", ".x")] rfl rfl).1 rfl⟩

/-- **C10**: accepted diff offsets are used unchecked as indexes:
projecting the crashing file raises `IndexError` exactly when some
accepted offset is at or past the end of the crashing file, and a
trial whose offset is at or past the end of the template raises
`IndexError` when the trial buffer is built; no bounds check guards
either use. -/
theorem claim10_unchecked_offsets (tmp : Buf) (diff : List Nat) (c : Ctx)
    (startAt : Nat) (tpl : Buf) (crash : Dict) (pos : Nat) (rest : List Nat)
    (iter b : Nat) :
    ((∃ e, read_crash tmp diff = .error e) ↔ ∃ p ∈ diff, tmp.length ≤ p) ∧
    (startAt ≤ iter → dictLookup crash pos = some b → tpl.length ≤ pos →
      innerLoop c startAt tpl crash (pos :: rest) iter = .error "IndexError") := by
  constructor
  · exact read_crash_go_error_iff tmp diff []
  · intro hs hl hge
    have hnlt : ¬ pos < tpl.length := by omega
    simp [innerLoop, hs, hl, setByte, hnlt]

/-- Witness for C10 at concrete inputs: offset 3 is outside the
one-byte crashing file, and offset 2 is outside the one-byte template. -/
theorem claim10_unchecked_offsets_witness :
    ((∃ e, read_crash [7] [3] = .error e) ↔
      ∃ p ∈ ([3] : List Nat), List.length [(7 : Nat)] ≤ p) ∧
    innerLoop ⟨fun _ => 0, ([] : List Int)⟩ 0 [1] [(2, 9)] [2] 0 =
      .error "IndexError" :=
  ⟨(claim10_unchecked_offsets [7] [3] ⟨fun _ => 0, []⟩ 0 [1] [(2, 9)] 2 [] 0 9).1,
   (claim10_unchecked_offsets [7] [3] ⟨fun _ => 0, []⟩ 0 [1] [(2, 9)] 2 [] 0 9).2
     (by omega) rfl (by decide)⟩

/-- Witness for C6 at a concrete input: the round commits offset 1. -/
theorem claim6_template_mutation_witness :
    ({ diff := [], crash := [], template := [65, 66], iteration := 1 } :
        MinState).template =
      ({ diff := [1], crash := [(1, 66)], template := [65, 65], iteration := 0 } :
        MinState).template ∨
    ∃ v b, ([1] : List Nat).getLast? = some v ∧
      dictLookup [(1, 66)] v = some b ∧
      ([65, 66] : Buf) = List.set [65, 65] v b ∧
      List.get? [65, 66] v = some b ∧
      ∀ j, j ≠ v → List.get? [65, 66] j = List.get? [65, 65] j :=
  claim6_template_mutation ⟨fun _ => 0, ([] : List Int)⟩ 0
    { diff := [1], crash := [(1, 66)], template := [65, 65], iteration := 0 }
    { diff := [], crash := [], template := [65, 66], iteration := 1 } rfl

end GenericMinimizer
